import Mathlib

/-!
Verification of the schema-accumulation core of `mongodb-schema-parser`
(`src/field_type.rs`).

The shallow embedding translates `FieldType` and its operations directly from
`src/field_type.rs`.  The types `Bson`, `ValueType` and `SchemaParser` are
referenced by that file (`use super::{Bson, SchemaParser, ValueType}`) but
their definitions are not part of the provided sources, so they are modelled
from the specification (each such definition carries a doc comment saying so).

Modelling conventions:
* Rust `f64` is modelled by `F64`: either NaN or an exact numeric value (as a
  rational).  Only storage, equality and comparison of doubles occur in the
  code, and for those the decisive IEEE-754 facts are: `partial_cmp` is
  defined exactly on NaN-free pairs, and `NaN != NaN`.  Infinities order
  totally like finite values and are not distinguished from them here.
* Rust `f32` arithmetic (the single division `count as f32 / parent_count as
  f32` in `set_probability`) is modelled by exact rational division.
* A Rust panic (`unimplemented!()`, or `Option::unwrap` on `None` inside
  `sort_by`) is modelled by the operation returning `none`; an operation that
  cannot panic returns its result directly.
* `vec.sort_by(|a, b| a.partial_cmp(b).unwrap())` is modelled conservatively:
  it succeeds exactly when every pair of (distinct positions of) elements is
  comparable, in which case the result is the unique sorted permutation under
  the total tag-then-value order, which agrees with the Rust comparator on
  every comparable pair.  Which pairs Rust's sort actually feeds to the
  comparator is algorithm-dependent; on the two-element pools used as
  counterexamples below the comparator is certainly invoked on the pair.
-/

/-- Modelled from the spec: IEEE-754 double as used by the code — a value is
either NaN or an orderable number.  `partial_cmp` is `none` iff a NaN is
involved; `==` is `false` whenever a NaN is involved (`NaN != NaN`). -/
inductive F64 where
  | nan : F64
  | val (q : ℚ) : F64
deriving DecidableEq

/-- Three-way comparison derived from a linear order, `.eq` iff equal. -/
def cmp3 {α : Type} [LinearOrder α] (x y : α) : Ordering :=
  if x < y then .lt else if y < x then .gt else .eq

/-- Lexicographic comparison of lists from an element comparison. -/
def cmpLex {α : Type} (c : α → α → Ordering) : List α → List α → Ordering
  | [], [] => .eq
  | [], _ :: _ => .lt
  | _ :: _, [] => .gt
  | x :: xs, y :: ys =>
    match c x y with
    | .eq => cmpLex c xs ys
    | o => o

/-- Lexicographic string comparison over the character sequence (the order
of Rust's derived `Ord` on `String`). -/
def strCmp (s t : String) : Ordering :=
  cmpLex cmp3 s.data t.data

/-- Rust `f64::partial_cmp`: `none` iff a NaN is involved. -/
def F64.pcmp : F64 → F64 → Option Ordering
  | .val p, .val q => some (cmp3 p q)
  | _, _ => none

/-- A total extension of `F64.pcmp` used by the model's sort; it agrees with
`pcmp` wherever `pcmp` is defined (the NaN rows are never consulted on pools
the modelled sort accepts). -/
def F64.tcmp : F64 → F64 → Ordering
  | .nan, .nan => .eq
  | .nan, .val _ => .lt
  | .val _, .nan => .gt
  | .val p, .val q => cmp3 p q

/-- Rust `f64` `==`: NaN is not equal to anything, including itself. -/
def F64.beqF : F64 → F64 → Bool
  | .val p, .val q => decide (p = q)
  | _, _ => false

/-- Modelled from the spec: `ValueType` (the NormalizedValue kinds — string,
32-bit int, 64-bit int, float, boolean, binary blob, decimal-as-string,
null-marker).  The enum itself is declared outside the provided sources
(`use super::ValueType`); payloads follow the uses in `field_type.rs`
(`ValueType::Str(String)`, `I32`, `I64`, `FloatingPoint`, `Boolean`,
`Binary(Vec<u8>)`, `Decimal128(String)`, `Null(String)`). -/
inductive ValueType where
  | str (s : String)
  | i32 (n : Int)
  | i64 (n : Int)
  | floatingPoint (f : F64)
  | boolean (b : Bool)
  | binary (bytes : List Nat)
  | decimal128 (s : String)
  | null (s : String)
deriving DecidableEq

/-- Variant discriminant, in declaration order (used by the derived
`PartialOrd`/`Ord` semantics of a Rust enum: variants compare by
discriminant first). -/
def ValueType.rank : ValueType → Nat
  | .str _ => 0
  | .i32 _ => 1
  | .i64 _ => 2
  | .floatingPoint _ => 3
  | .boolean _ => 4
  | .binary _ => 5
  | .decimal128 _ => 6
  | .null _ => 7

/-- Modelled from the spec: the comparison `a.partial_cmp(b)` of the derived
`PartialOrd` on `ValueType` (declared outside the provided sources): variants
of different discriminant compare by discriminant and always resolve; equal
variants compare payloads, which is partial only for the float payload
(NaN). -/
def valueCmp (a b : ValueType) : Option Ordering :=
  match a, b with
  | .str x, .str y => some (strCmp x y)
  | .i32 x, .i32 y => some (cmp3 x y)
  | .i64 x, .i64 y => some (cmp3 x y)
  | .floatingPoint x, .floatingPoint y => F64.pcmp x y
  | .boolean x, .boolean y => some (cmp3 x y)
  | .binary x, .binary y => some (cmpLex cmp3 x y)
  | .decimal128 x, .decimal128 y => some (strCmp x y)
  | .null x, .null y => some (strCmp x y)
  | _, _ => some (cmp3 a.rank b.rank)

/-- Total tag-then-value comparison: agrees with `valueCmp` wherever the
latter is defined, and additionally orders NaN floats. -/
def valueTCmp (a b : ValueType) : Ordering :=
  match a, b with
  | .str x, .str y => strCmp x y
  | .i32 x, .i32 y => cmp3 x y
  | .i64 x, .i64 y => cmp3 x y
  | .floatingPoint x, .floatingPoint y => F64.tcmp x y
  | .boolean x, .boolean y => cmp3 x y
  | .binary x, .binary y => cmpLex cmp3 x y
  | .decimal128 x, .decimal128 y => strCmp x y
  | .null x, .null y => strCmp x y
  | _, _ => cmp3 a.rank b.rank

/-- `a <= b` under the total comparison (what an ascending sort realises). -/
def valueLe (a b : ValueType) : Bool :=
  decide (valueTCmp a b ≠ .gt)

/-- Modelled from the spec: the derived `PartialEq` (`==`) on `ValueType`;
float payloads compare with IEEE semantics, so `NaN != NaN`.  This is the
equality `Vec::dedup` uses. -/
def veq (a b : ValueType) : Bool :=
  match a, b with
  | .str x, .str y => decide (x = y)
  | .i32 x, .i32 y => decide (x = y)
  | .i64 x, .i64 y => decide (x = y)
  | .floatingPoint x, .floatingPoint y => F64.beqF x y
  | .boolean x, .boolean y => decide (x = y)
  | .binary x, .binary y => decide (x = y)
  | .decimal128 x, .decimal128 y => decide (x = y)
  | .null x, .null y => decide (x = y)
  | _, _ => false

/-- Tail of Rust `Vec::dedup` given the last kept element `prev`: each
element equal (under `==`) to the last kept one is dropped. -/
def rustDedupAux (prev : ValueType) : List ValueType → List ValueType
  | [] => []
  | b :: rest => if veq prev b then rustDedupAux prev rest else b :: rustDedupAux b rest

/-- Rust `Vec::dedup`: remove consecutive elements equal (under `==`) to the
last kept element. -/
def rustDedup : List ValueType → List ValueType
  | [] => []
  | a :: rest => a :: rustDedupAux a rest

/-- Insertion into a list sorted by `valueLe`. -/
def insertSorted (x : ValueType) : List ValueType → List ValueType
  | [] => [x]
  | y :: ys => if valueLe x y then x :: y :: ys else y :: insertSorted x ys

/-- Sorting by `valueLe` (insertion sort); since `valueLe` restricted to a
pool accepted by the modelled sort is antisymmetric, the sorted permutation
is unique, so this models `Vec::sort_by` exactly on such pools. -/
def sortValues : List ValueType → List ValueType
  | [] => []
  | x :: xs => insertSorted x (sortValues xs)

/-- The modelled success condition of
`sort_by(|a, b| a.partial_cmp(b).unwrap())`: every pair of elements at
distinct positions is comparable. -/
def pairwiseComparable : List ValueType → Bool
  | [] => true
  | a :: rest =>
    rest.all (fun b => (valueCmp a b).isSome) && pairwiseComparable rest

/-- Modelled from the spec: the BSON tagged-value input (`use super::Bson`,
an external decoder type, "a closed variant type representing one decoded
scalar, container, or null value").  Payloads irrelevant to this file are
reduced to what the code reads from them: `UtcDatetime`, `ObjectId` and
`Decimal128` are consumed only through `to_string()` and so carry a
`String`; the `BinarySubtype` of `Binary` is never read and is dropped. -/
inductive Bson where
  | regExp (pat opts : String)
  | javaScriptCode (code : String)
  | javaScriptCodeWithScope (code : String) (scope : List (String × Bson))
  | floatingPoint (f : F64)
  | utcDatetime (d : String)
  | decimal128 (d : String)
  | timeStamp (n : Int)
  | binary (bytes : List Nat)
  | objectId (id : String)
  | boolean (b : Bool)
  | symbol (s : String)
  | string (s : String)
  | array (elems : List Bson)
  | i32 (n : Int)
  | i64 (n : Int)
  | document (fields : List (String × Bson))
  | null

/-- A container is an array or a document. -/
def Bson.isContainer : Bson → Bool
  | .array _ => true
  | .document _ => true
  | _ => false

mutual

/-- `FieldType` from `src/field_type.rs` (fields in source order: `path`,
`count`, `bson_type`, `probability`, `values`, `has_duplicates`, `schema`,
`unique`).  Mutually inductive with `SchemaParser` because a field whose
values are subdocuments owns a nested parser. -/
inductive FieldType where
  | mk (path : String) (count : Nat) (bson_type : String) (probability : ℚ)
       (values : List ValueType) (has_duplicates : Bool)
       (schema : Option SchemaParser) (unique : Option Nat) : FieldType

/-- Modelled from the spec: `SchemaParser` (the SchemaAccumulator, declared
outside the provided sources) — "mapping from field path (string) to
FieldRecord, plus the count of documents processed at this level". -/
inductive SchemaParser where
  | mk (count : Nat) (fields : List (String × FieldType)) : SchemaParser

end

def FieldType.path : FieldType → String
  | .mk p _ _ _ _ _ _ _ => p

def FieldType.count : FieldType → Nat
  | .mk _ c _ _ _ _ _ _ => c

def FieldType.bson_type : FieldType → String
  | .mk _ _ b _ _ _ _ _ => b

def FieldType.probability : FieldType → ℚ
  | .mk _ _ _ pr _ _ _ _ => pr

def FieldType.values : FieldType → List ValueType
  | .mk _ _ _ _ v _ _ _ => v

def FieldType.has_duplicates : FieldType → Bool
  | .mk _ _ _ _ _ h _ _ => h

def FieldType.schema : FieldType → Option SchemaParser
  | .mk _ _ _ _ _ _ s _ => s

def FieldType.unique : FieldType → Option Nat
  | .mk _ _ _ _ _ _ _ u => u

def SchemaParser.count : SchemaParser → Nat
  | .mk c _ => c

def SchemaParser.fields : SchemaParser → List (String × FieldType)
  | .mk _ f => f

/-- `FieldType::get_type` (`src/field_type.rs:124`): the type label of a
BSON value, via the string constants declared at the top of the file. -/
def FieldType.get_type : Bson → String
  | .javaScriptCodeWithScope _ _ => "JavaScriptCodeWithScope"
  | .javaScriptCode _ => "JavaScriptCode"
  | .floatingPoint _ => "Double"
  | .utcDatetime _ => "UtcDatetime"
  | .decimal128 _ => "Decimal128"
  | .timeStamp _ => "Timestamp"
  | .binary _ => "BinData"
  | .regExp _ _ => "Regex"
  | .document _ => "Document"
  | .objectId _ => "ObjectId"
  | .boolean _ => "Boolean"
  | .symbol _ => "Symbol"
  | .string _ => "String"
  | .array _ => "Array"
  | .i32 _ => "Int"
  | .i64 _ => "Long"
  | .null => "Null"

/-- `FieldType::get_value` (`src/field_type.rs:97`): normalization of one
BSON value; `none` exactly on the container variants ("Array and Document
get handeled separately"). -/
def FieldType.get_value : Bson → Option ValueType
  | .regExp v _ => some (.str v)
  | .javaScriptCode v => some (.str v)
  | .javaScriptCodeWithScope v _ => some (.str v)
  | .symbol v => some (.str v)
  | .i64 n => some (.i64 n)
  | .timeStamp n => some (.i64 n)
  | .floatingPoint n => some (.floatingPoint n)
  | .utcDatetime d => some (.str d)
  | .decimal128 d => some (.decimal128 d)
  | .boolean b => some (.boolean b)
  | .string s => some (.str s)
  | .binary bytes => some (.binary bytes)
  | .objectId id => some (.str id)
  | .i32 n => some (.i32 n)
  | .null => some (.null "Null")
  | _ => none

/-- `FieldType::new` (`src/field_type.rs:37`): the literal struct
expression — `values` starts empty and `schema` starts `None` regardless of
`value`. -/
def FieldType.new (path : String) (value : Bson) : FieldType :=
  .mk path 1 (FieldType.get_type value) 0 [] false none none

/-- `FieldType::set_probability` (`src/field_type.rs:174`):
`self.probability = self.count as f32 / parent_count as f32` (modelled as
exact rational division). -/
def FieldType.set_probability : FieldType → Nat → FieldType
  | .mk p c b _ v h s u, parent_count => .mk p c b ((c : ℚ) / (parent_count : ℚ)) v h s u

/-- `FieldType::update_count` (`src/field_type.rs:178`): `self.count += 1`. -/
def FieldType.update_count : FieldType → FieldType
  | .mk p c b pr v h s u => .mk p (c + 1) b pr v h s u

/-- `FieldType::set_schema` (`src/field_type.rs:166`). -/
def FieldType.set_schema : FieldType → SchemaParser → FieldType
  | .mk p c b pr v h _ u, sp => .mk p c b pr v h (some sp) u

/-- Push one normalized value (the `self.values.push(v)` inside the map). -/
def FieldType.push_value : FieldType → ValueType → FieldType
  | .mk p c b pr v h s u, x => .mk p c b pr (v ++ [x]) h s u

/-- Extend `values` by several normalized values (`self.values.extend`). -/
def FieldType.extend_values : FieldType → List ValueType → FieldType
  | .mk p c b pr v h s u, xs => .mk p c b pr (v ++ xs) h s u

/-- `FieldType::update_value` (`src/field_type.rs:182`): an array extends
`values` with the normalizations of its elements (`filter_map
get_value`, which drops nested containers); any other value is normalized
and pushed if `get_value` returns `Some`. -/
def FieldType.update_value (ft : FieldType) (value : Bson) : FieldType :=
  match value with
  | .array arr => ft.extend_values (arr.filterMap FieldType.get_value)
  | v =>
    match FieldType.get_value v with
    | some x => ft.push_value x
    | none => ft

/-- `FieldType::get_unique` (`src/field_type.rs:154`): clone `values`, sort
with `partial_cmp(..).unwrap()`, `dedup`, take the length.  The `unwrap`
panics (result `none`) when the sort compares an incomparable pair; see the
modelling note at the top of the file. -/
def FieldType.get_unique (ft : FieldType) : Option Nat :=
  if pairwiseComparable ft.values then
    some (rustDedup (sortValues ft.values)).length
  else
    none

/-- `FieldType::get_duplicates` (`src/field_type.rs:148`):
`(total_values - unique) != 0` with usize subtraction (truncated, as `Nat`
subtraction); propagates a panic from `get_unique`. -/
def FieldType.get_duplicates (ft : FieldType) : Option Bool :=
  (ft.get_unique).map (fun u => decide (ft.values.length - u ≠ 0))

/-- `FieldType::set_unique` (`src/field_type.rs:170`). -/
def FieldType.set_unique (ft : FieldType) : Option FieldType :=
  (ft.get_unique).map (fun u =>
    match ft with
    | .mk p c b pr v h s _ => .mk p c b pr v h s (some u))

/-- `FieldType::set_duplicates` (`src/field_type.rs:161`). -/
def FieldType.set_duplicates (ft : FieldType) : Option FieldType :=
  (ft.get_duplicates).map (fun d =>
    match ft with
    | .mk p c b pr v _ s u => .mk p c b pr v d s u)

/-- `FieldType::finalise_type` (`src/field_type.rs:118`): `set_probability`,
then `set_unique`, then `set_duplicates`. -/
def FieldType.finalise_type (ft : FieldType) (parent_count : Nat) : Option FieldType :=
  ((ft.set_probability parent_count).set_unique).bind FieldType.set_duplicates

/-- Modelled from the spec: `SchemaParser::new` — "empty mapping, zero
documents processed". -/
def SchemaParser.new : SchemaParser := .mk 0 []

/-- Modelled from the spec: the level document counter increment of
`observe_document`. -/
def SchemaParser.update_count : SchemaParser → SchemaParser
  | .mk c f => .mk (c + 1) f

/-- Look up a field record by path in the level's mapping. -/
def SchemaParser.find_field (sp : SchemaParser) (key : String) : Option FieldType :=
  (sp.fields.find? (fun kv => kv.1 = key)).map Prod.snd

/-- Replace the record stored under `key` (first occurrence). -/
def SchemaParser.store_field : SchemaParser → String → FieldType → SchemaParser
  | .mk c f, key, ft =>
    .mk c (f.map (fun kv => if kv.1 = key then (kv.1, ft) else kv))

/-- Append a newly created record to the level's mapping. -/
def SchemaParser.insert_field : SchemaParser → String → FieldType → SchemaParser
  | .mk c f, key, ft => .mk c (f ++ [(key, ft)])

/-- Dotted field paths ("dotted/structural identifier of a field's position
within (possibly nested) documents"). -/
def childPath (path : Option String) (key : String) : String :=
  match path with
  | none => key
  | some p => p ++ "." ++ key

mutual

/-- `FieldType::add_to_type` (`src/field_type.rs:53`): refresh probability,
then dispatch on the value — an array extends `values` by the normalized
elements, a document feeds a fresh `SchemaParser` with the subdocument and
stores it as `schema`, any other value is normalized and pushed. -/
def FieldType.add_to_type (ft : FieldType) (value : Bson) (parent_count : Nat) :
    Option FieldType :=
  let ft1 := ft.set_probability parent_count
  match value with
  | .array arr => some (ft1.extend_values (arr.filterMap FieldType.get_value))
  | .document subdoc =>
    (SchemaParser.generate_field SchemaParser.new subdoc (some ft1.path) (some ft1.count)).map
      (fun sp => ft1.set_schema sp)
  | v =>
    some (match FieldType.get_value v with
          | some x => ft1.push_value x
          | none => ft1)
termination_by 3 * sizeOf value
decreasing_by all_goals (simp_wf; try omega)

/-- `FieldType::update_type` (`src/field_type.rs:78`): when the field was
declared `"Document"`, a document value is folded into the existing child
parser, and any other situation (no child parser, or a non-document value)
hits `unimplemented!()` — a panic, modelled as `none`.  On the surviving
paths the count is bumped and the value folded into `values`. -/
def FieldType.update_type (ft : FieldType) (value : Bson) : Option FieldType :=
  if ft.bson_type = "Document" then
    match ft.schema with
    | some sp =>
      match value with
      | .document subdoc =>
        (SchemaParser.generate_field sp subdoc (some ft.path) (some ft.count)).map
          (fun sp2 => (((ft.set_schema sp2).update_count).update_value value))
      | _ => none
    | none => none
  else
    some ((ft.update_count).update_value value)
termination_by 3 * sizeOf value
decreasing_by all_goals (simp_wf; try omega)

/-- Modelled from the spec: `SchemaParser::generate_field` (declared outside
the provided sources) — the observe-document step: "increments the level's
document counter; for each field in `doc`, looks up an existing FieldRecord
by path — if absent, creates one; if present, calls `add_observation`".
The `count` argument, when supplied by a parent field, is the parent count
used for newly created records (4.2: "passing current `count` as the new
parent_count for the child level"); otherwise the level's own counter prior
to this document is used. -/
def SchemaParser.generate_field (sp : SchemaParser) (doc : List (String × Bson))
    (path : Option String) (pcount : Option Nat) : Option SchemaParser :=
  SchemaParser.observe_fields sp.update_count doc path (pcount.getD sp.count)
termination_by 3 * sizeOf doc + 2
decreasing_by all_goals (simp_wf; try omega)

/-- Modelled from the spec: the per-field loop of `observe_document` — for
each field of the document, update the existing record (a panic inside the
update propagates) or create-and-populate a fresh one. -/
def SchemaParser.observe_fields (sp : SchemaParser) (doc : List (String × Bson))
    (path : Option String) (parent : Nat) : Option SchemaParser :=
  match doc with
  | [] => some sp
  | (key, value) :: rest =>
    match sp.find_field (childPath path key) with
    | some ft =>
      match FieldType.update_type ft value with
      | none => none
      | some ft2 =>
        SchemaParser.observe_fields (sp.store_field (childPath path key) ft2) rest path parent
    | none =>
      match FieldType.add_to_type (FieldType.new (childPath path key) value) value parent with
      | none => none
      | some ft2 =>
        SchemaParser.observe_fields (sp.insert_field (childPath path key) ft2) rest path parent
termination_by 3 * sizeOf doc + 1
decreasing_by all_goals (simp_wf; try omega)

end

/-! ### Comparator laws -/

theorem cmp3_eq_lt {α : Type} [LinearOrder α] {x y : α} : cmp3 x y = .lt ↔ x < y := by
  by_cases h1 : x < y
  · simp [cmp3, h1]
  · by_cases h2 : y < x <;> simp [cmp3, h1, h2]

theorem cmp3_eq_gt {α : Type} [LinearOrder α] {x y : α} : cmp3 x y = .gt ↔ y < x := by
  by_cases h1 : x < y
  · simp [cmp3, h1, lt_asymm h1]
  · by_cases h2 : y < x <;> simp [cmp3, h1, h2]

theorem cmp3_eq_eq {α : Type} [LinearOrder α] {x y : α} : cmp3 x y = .eq ↔ x = y := by
  by_cases h1 : x < y
  · simp [cmp3, h1]
    exact fun h => absurd (h ▸ h1) (lt_irrefl y)
  · by_cases h2 : y < x
    · simp [cmp3, h1, h2]
      exact fun h => absurd (h ▸ h2) (lt_irrefl y)
    · simp [cmp3, h1, h2]
      exact le_antisymm (not_lt.mp h2) (not_lt.mp h1)

theorem cmp3_swap {α : Type} [LinearOrder α] {x y : α} : (cmp3 x y).swap = cmp3 y x := by
  rcases lt_trichotomy x y with h | h | h
  · rw [cmp3_eq_lt.mpr h, cmp3_eq_gt.mpr h]; rfl
  · rw [cmp3_eq_eq.mpr h, cmp3_eq_eq.mpr h.symm]; rfl
  · rw [cmp3_eq_gt.mpr h, cmp3_eq_lt.mpr h]; rfl

theorem cmp3_ne_gt {α : Type} [LinearOrder α] {x y : α} : cmp3 x y ≠ .gt ↔ x ≤ y := by
  rw [Ne, cmp3_eq_gt, not_lt]

theorem cmp3_ne_gt_trans {α : Type} [LinearOrder α] {x y z : α}
    (h1 : cmp3 x y ≠ .gt) (h2 : cmp3 y z ≠ .gt) : cmp3 x z ≠ .gt :=
  cmp3_ne_gt.mpr (le_trans (cmp3_ne_gt.mp h1) (cmp3_ne_gt.mp h2))

theorem cmp3_lt_trans {α : Type} [LinearOrder α] {x y z : α}
    (h1 : cmp3 x y = .lt) (h2 : cmp3 y z = .lt) : cmp3 x z = .lt :=
  cmp3_eq_lt.mpr (lt_trans (cmp3_eq_lt.mp h1) (cmp3_eq_lt.mp h2))

theorem cmpLex_eq_eq {α : Type} {c : α → α → Ordering}
    (hc : ∀ x y, c x y = .eq ↔ x = y) :
    ∀ xs ys : List α, cmpLex c xs ys = .eq ↔ xs = ys
  | [], [] => by simp [cmpLex]
  | [], _ :: _ => by simp [cmpLex]
  | _ :: _, [] => by simp [cmpLex]
  | x :: xs, y :: ys => by
    simp only [cmpLex, List.cons.injEq]
    cases h : c x y with
    | eq =>
      have hxy := (hc x y).mp h
      simp [hxy, cmpLex_eq_eq hc xs ys]
    | lt =>
      simp only []
      constructor
      · intro hh; cases hh
      · rintro ⟨rfl, -⟩
        rw [(hc x x).mpr rfl] at h; cases h
    | gt =>
      simp only []
      constructor
      · intro hh; cases hh
      · rintro ⟨rfl, -⟩
        rw [(hc x x).mpr rfl] at h; cases h

theorem cmpLex_swap {α : Type} {c : α → α → Ordering}
    (hc : ∀ x y, (c x y).swap = c y x) :
    ∀ xs ys : List α, (cmpLex c xs ys).swap = cmpLex c ys xs
  | [], [] => by simp [cmpLex]; rfl
  | [], _ :: _ => by simp [cmpLex]; rfl
  | _ :: _, [] => by simp [cmpLex]; rfl
  | x :: xs, y :: ys => by
    simp only [cmpLex]
    cases h : c x y with
    | eq =>
      have h2 : c y x = .eq := by rw [← hc x y, h]; rfl
      rw [h2]
      exact cmpLex_swap hc xs ys
    | lt =>
      have h2 : c y x = .gt := by rw [← hc x y, h]; rfl
      rw [h2]; rfl
    | gt =>
      have h2 : c y x = .lt := by rw [← hc x y, h]; rfl
      rw [h2]; rfl

theorem cmpLex_ne_gt_trans {α : Type} {c : α → α → Ordering}
    (hceq : ∀ x y, c x y = .eq ↔ x = y)
    (hctr : ∀ {x y z}, c x y = .lt → c y z = .lt → c x z = .lt) :
    ∀ xs ys zs : List α,
      cmpLex c xs ys ≠ .gt → cmpLex c ys zs ≠ .gt → cmpLex c xs zs ≠ .gt
  | [], ys, zs => by
    intro _ _
    cases zs <;> simp [cmpLex]
  | _ :: _, [], _ => by
    intro h1 _
    exact absurd rfl h1
  | _ :: _, _ :: _, [] => by
    intro _ h2
    exact absurd rfl h2
  | x :: xs, y :: ys, z :: zs => by
    intro h1 h2
    simp only [cmpLex] at h1 h2 ⊢
    cases hxy : c x y with
    | gt => rw [hxy] at h1; exact absurd rfl h1
    | eq =>
      have := (hceq x y).mp hxy; subst this
      rw [hxy] at h1
      cases hyz : c x z with
      | gt => rw [hyz] at h2; exact absurd rfl h2
      | lt => intro hh; cases hh
      | eq =>
        rw [hyz] at h2
        exact cmpLex_ne_gt_trans hceq hctr xs ys zs h1 h2
    | lt =>
      cases hyz : c y z with
      | gt => rw [hyz] at h2; exact absurd rfl h2
      | eq =>
        have := (hceq y z).mp hyz; subst this
        rw [hxy]
        intro hh; cases hh
      | lt =>
        rw [hctr hxy hyz]
        intro hh; cases hh

theorem strCmp_eq_eq {s t : String} : strCmp s t = .eq ↔ s = t := by
  rw [strCmp, cmpLex_eq_eq (fun _ _ => cmp3_eq_eq)]
  exact ⟨fun h => String.ext h, fun h => h ▸ rfl⟩

theorem strCmp_swap {s t : String} : (strCmp s t).swap = strCmp t s :=
  cmpLex_swap (fun _ _ => cmp3_swap) s.data t.data

theorem strCmp_ne_gt_trans {s t u : String}
    (h1 : strCmp s t ≠ .gt) (h2 : strCmp t u ≠ .gt) : strCmp s u ≠ .gt :=
  cmpLex_ne_gt_trans (fun _ _ => cmp3_eq_eq) (fun ha hb => cmp3_lt_trans ha hb)
    s.data t.data u.data h1 h2

theorem bytesCmp_eq_eq {xs ys : List Nat} : cmpLex cmp3 xs ys = .eq ↔ xs = ys :=
  cmpLex_eq_eq (fun _ _ => cmp3_eq_eq) xs ys

theorem bytesCmp_swap {xs ys : List Nat} : (cmpLex cmp3 xs ys).swap = cmpLex cmp3 ys xs :=
  cmpLex_swap (fun _ _ => cmp3_swap) xs ys

theorem bytesCmp_ne_gt_trans {xs ys zs : List Nat}
    (h1 : cmpLex cmp3 xs ys ≠ .gt) (h2 : cmpLex cmp3 ys zs ≠ .gt) :
    cmpLex cmp3 xs zs ≠ .gt :=
  cmpLex_ne_gt_trans (fun _ _ => cmp3_eq_eq) (fun ha hb => cmp3_lt_trans ha hb) xs ys zs h1 h2

theorem F64.tcmp_eq_eq {x y : F64} : F64.tcmp x y = .eq ↔ x = y := by
  cases x <;> cases y <;> simp [F64.tcmp, cmp3_eq_eq]

theorem F64.tcmp_swap {x y : F64} : (F64.tcmp x y).swap = F64.tcmp y x := by
  cases x <;> cases y <;> simp [F64.tcmp, cmp3_swap] <;> rfl

theorem F64.tcmp_ne_gt_trans {x y z : F64}
    (h1 : F64.tcmp x y ≠ .gt) (h2 : F64.tcmp y z ≠ .gt) : F64.tcmp x z ≠ .gt := by
  cases x <;> cases y <;> cases z <;>
    simp_all [F64.tcmp]
  exact cmp3_ne_gt_trans h1 h2

/-! ### Laws of the total value comparison -/

theorem valueTCmp_eq_eq : ∀ {a b : ValueType}, valueTCmp a b = .eq ↔ a = b := by
  intro a b
  cases a <;> cases b <;>
    simp [valueTCmp, ValueType.rank, cmp3_eq_eq, strCmp_eq_eq, bytesCmp_eq_eq, F64.tcmp_eq_eq]

theorem valueTCmp_swap : ∀ {a b : ValueType}, (valueTCmp a b).swap = valueTCmp b a := by
  intro a b
  cases a <;> cases b <;>
    simp [valueTCmp, ValueType.rank, cmp3_swap, strCmp_swap, bytesCmp_swap, F64.tcmp_swap]

theorem valueTCmp_ne_gt_trans : ∀ {a b c : ValueType},
    valueTCmp a b ≠ .gt → valueTCmp b c ≠ .gt → valueTCmp a c ≠ .gt := by
  intro a b c
  cases a <;> cases b <;> cases c <;>
    simp only [valueTCmp, ValueType.rank] <;>
    intro h1 h2 <;>
    first
      | exact h1
      | exact h2
      | decide
      | exact absurd h1 (by decide)
      | exact absurd h2 (by decide)
      | exact strCmp_ne_gt_trans h1 h2
      | exact bytesCmp_ne_gt_trans h1 h2
      | exact cmp3_ne_gt_trans h1 h2
      | exact F64.tcmp_ne_gt_trans h1 h2

theorem valueLe_total (a b : ValueType) : valueLe a b = true ∨ valueLe b a = true := by
  simp only [valueLe, decide_eq_true_eq]
  cases h : valueTCmp a b with
  | lt => exact Or.inl (by simp [h])
  | eq => exact Or.inl (by simp [h])
  | gt =>
    refine Or.inr ?_
    have hba : valueTCmp b a = .lt := by rw [← valueTCmp_swap, h]; rfl
    simp [hba]

theorem valueLe_trans {a b c : ValueType}
    (h1 : valueLe a b = true) (h2 : valueLe b c = true) : valueLe a c = true := by
  simp only [valueLe, decide_eq_true_eq] at h1 h2 ⊢
  exact valueTCmp_ne_gt_trans h1 h2

theorem valueLe_antisymm {a b : ValueType}
    (h1 : valueLe a b = true) (h2 : valueLe b a = true) : a = b := by
  simp only [valueLe, decide_eq_true_eq] at h1 h2
  cases h : valueTCmp a b with
  | eq => exact valueTCmp_eq_eq.mp h
  | gt => exact absurd h h1
  | lt =>
    exfalso
    apply h2
    rw [← valueTCmp_swap, h]
    rfl

theorem F64.beqF_iff {x y : F64} (h : x = .nan → y ≠ .nan) :
    F64.beqF x y = true ↔ x = y := by
  cases x <;> cases y <;> simp_all [F64.beqF]

theorem veq_iff {a b : ValueType}
    (h : a = .floatingPoint .nan → b ≠ .floatingPoint .nan) :
    veq a b = true ↔ a = b := by
  cases a <;> cases b <;> simp_all [veq]
  exact F64.beqF_iff h

theorem F64.pcmp_none_iff {x y : F64} : F64.pcmp x y = none ↔ x = .nan ∨ y = .nan := by
  cases x <;> cases y <;> simp [F64.pcmp]

theorem valueCmp_none_iff {a b : ValueType} :
    valueCmp a b = none ↔
      ∃ x y, a = .floatingPoint x ∧ b = .floatingPoint y ∧ (x = .nan ∨ y = .nan) := by
  cases a <;> cases b <;> simp [valueCmp, F64.pcmp_none_iff]

theorem pairwiseComparable_iff : ∀ {l : List ValueType},
    pairwiseComparable l = true ↔ l.Pairwise (fun a b => (valueCmp a b).isSome = true)
  | [] => by simp [pairwiseComparable]
  | a :: rest => by
    simp [pairwiseComparable, List.all_eq_true, pairwiseComparable_iff (l := rest),
      List.pairwise_cons]

/-! ### Sorting and deduplication -/

theorem perm_insertSorted (x : ValueType) : ∀ l, (insertSorted x l).Perm (x :: l)
  | [] => List.Perm.refl _
  | y :: ys => by
    simp only [insertSorted]
    split
    · exact List.Perm.refl _
    · exact ((perm_insertSorted x ys).cons y).trans (List.Perm.swap x y ys)

theorem perm_sortValues : ∀ l : List ValueType, (sortValues l).Perm l
  | [] => List.Perm.refl _
  | x :: xs => (perm_insertSorted x (sortValues xs)).trans ((perm_sortValues xs).cons x)

theorem pairwise_insertSorted {x : ValueType} {l : List ValueType}
    (h : l.Pairwise (fun a b => valueLe a b = true)) :
    (insertSorted x l).Pairwise (fun a b => valueLe a b = true) := by
  induction l with
  | nil => simp [insertSorted]
  | cons y ys ih =>
    rw [List.pairwise_cons] at h
    simp only [insertSorted]
    by_cases hxy : valueLe x y = true
    · rw [if_pos hxy, List.pairwise_cons]
      refine ⟨?_, List.pairwise_cons.mpr h⟩
      intro z hz
      rcases List.mem_cons.mp hz with rfl | hz'
      · exact hxy
      · exact valueLe_trans hxy (h.1 z hz')
    · rw [if_neg hxy, List.pairwise_cons]
      have hyx : valueLe y x = true := (valueLe_total x y).resolve_left hxy
      refine ⟨?_, ih h.2⟩
      intro z hz
      have hz' : z ∈ x :: ys := (perm_insertSorted x ys).subset hz
      rcases List.mem_cons.mp hz' with rfl | hz''
      · exact hyx
      · exact h.1 z hz''

theorem sorted_sortValues : ∀ l : List ValueType,
    (sortValues l).Pairwise (fun a b => valueLe a b = true)
  | [] => List.Pairwise.nil
  | _ :: xs => pairwise_insertSorted (sorted_sortValues xs)

theorem rustDedupAux_length_le (a : ValueType) :
    ∀ l : List ValueType, (rustDedupAux a l).length ≤ l.length := by
  intro l
  induction l generalizing a with
  | nil => simp [rustDedupAux]
  | cons b rest ih =>
    simp only [rustDedupAux]
    split
    · exact le_trans (ih a) (Nat.le_succ _)
    · simpa using ih b

theorem rustDedup_length_le : ∀ l : List ValueType, (rustDedup l).length ≤ l.length
  | [] => le_refl _
  | a :: rest => by simpa [rustDedup] using rustDedupAux_length_le a rest

theorem rustDedupAux_eq_dedup :
    ∀ (l : List ValueType) (a : ValueType),
      (∀ x ∈ l, valueLe a x = true) →
      l.Pairwise (fun u v => valueLe u v = true) →
      (a :: l).Pairwise (fun u v => u = .floatingPoint .nan → v ≠ .floatingPoint .nan) →
      a :: rustDedupAux a l = (a :: l).dedup
  | [], a, _, _, _ => by simp [rustDedupAux]
  | b :: rs, a, hle, hs, hnn => by
    have hnnab : a = .floatingPoint .nan → b ≠ .floatingPoint .nan :=
      (List.pairwise_cons.mp hnn).1 b (List.mem_cons_self b rs)
    rw [List.pairwise_cons] at hs
    simp only [rustDedupAux]
    by_cases hv : veq a b = true
    · rw [if_pos hv]
      have hab : a = b := (veq_iff hnnab).mp hv
      have hmem : a ∈ b :: rs := hab ▸ List.mem_cons_self b rs
      rw [List.dedup_cons_of_mem hmem, ← hab]
      exact rustDedupAux_eq_dedup rs a
        (fun x hx => hle x (List.mem_cons_of_mem b hx))
        hs.2
        (hnn.sublist (List.cons_sublist_cons.mpr (List.sublist_cons_self b rs)))
    · rw [if_neg hv]
      have hab : a ≠ b := by
        intro hh
        exact hv ((veq_iff hnnab).mpr hh)
      have hnotmem : a ∉ b :: rs := by
        intro hmem
        rcases List.mem_cons.mp hmem with hh | hh
        · exact hab hh
        · exact hab (valueLe_antisymm (hle b (List.mem_cons_self b rs)) (hs.1 a hh))
      rw [List.dedup_cons_of_not_mem hnotmem]
      have hrec := rustDedupAux_eq_dedup rs b hs.1 hs.2
        (hnn.sublist (List.sublist_cons_self a (b :: rs)))
      rw [← hrec]

theorem rustDedup_eq_dedup {l : List ValueType}
    (hs : l.Pairwise (fun u v => valueLe u v = true))
    (hnn : l.Pairwise (fun u v => u = .floatingPoint .nan → v ≠ .floatingPoint .nan)) :
    rustDedup l = l.dedup := by
  cases l with
  | nil => rfl
  | cons a rest =>
    rw [List.pairwise_cons] at hs
    exact rustDedupAux_eq_dedup rest a hs.1 hs.2 hnn

theorem comparable_symm {a b : ValueType}
    (h : (valueCmp a b).isSome = true) : (valueCmp b a).isSome = true := by
  rw [Option.isSome_iff_ne_none] at h ⊢
  intro hn
  apply h
  rw [valueCmp_none_iff] at hn ⊢
  obtain ⟨x, y, hx, hy, hor⟩ := hn
  exact ⟨y, x, hy, hx, hor.symm⟩

theorem comparable_no_nan_pair {a b : ValueType}
    (h : (valueCmp a b).isSome = true) :
    a = .floatingPoint .nan → b ≠ .floatingPoint .nan := by
  rintro rfl rfl
  rw [valueCmp_none_iff.mpr ⟨.nan, .nan, rfl, rfl, Or.inl rfl⟩] at h
  cases h

theorem get_unique_card {ft : FieldType} {n : Nat}
    (h : ft.get_unique = some n) : n = ft.values.toFinset.card := by
  rw [FieldType.get_unique] at h
  split at h
  case isFalse => cases h
  case isTrue hc =>
    have hn : n = (rustDedup (sortValues ft.values)).length := (Option.some.injEq _ _ ▸ h).symm
    have hperm := perm_sortValues ft.values
    have hpc : ft.values.Pairwise (fun a b => (valueCmp a b).isSome = true) :=
      pairwiseComparable_iff.mp hc
    have hpc2 : (sortValues ft.values).Pairwise (fun a b => (valueCmp a b).isSome = true) :=
      ((hperm.pairwise_iff (fun hxy => comparable_symm hxy)).mpr hpc)
    have hnn := hpc2.imp (fun hxy => comparable_no_nan_pair hxy)
    rw [rustDedup_eq_dedup (sorted_sortValues ft.values) hnn] at hn
    rw [hn, List.card_toFinset, (hperm.dedup).length_eq]

theorem get_unique_le {ft : FieldType} {n : Nat}
    (h : ft.get_unique = some n) : n ≤ ft.values.length := by
  rw [FieldType.get_unique] at h
  split at h
  case isFalse => cases h
  case isTrue hc =>
    have hn : n = (rustDedup (sortValues ft.values)).length := (Option.some.injEq _ _ ▸ h).symm
    rw [hn]
    calc (rustDedup (sortValues ft.values)).length
        ≤ (sortValues ft.values).length := rustDedup_length_le _
      _ = ft.values.length := (perm_sortValues ft.values).length_eq

/-- Closed form of `finalise_type` on a destructured record. -/
theorem finalise_type_eq (p : String) (c : Nat) (b : String) (pr : ℚ)
    (v : List ValueType) (hd : Bool) (s : Option SchemaParser) (u : Option Nat) (pc : Nat) :
    (FieldType.mk p c b pr v hd s u).finalise_type pc =
      if pairwiseComparable v = true then
        some (.mk p c b ((c : ℚ) / (pc : ℚ)) v
          (decide (v.length - (rustDedup (sortValues v)).length ≠ 0)) s
          (some (rustDedup (sortValues v)).length))
      else none := by
  by_cases hc : pairwiseComparable v = true <;>
    simp [FieldType.finalise_type, FieldType.set_probability, FieldType.set_unique,
      FieldType.set_duplicates, FieldType.get_duplicates, FieldType.get_unique,
      FieldType.values, hc]

/-! ### Projection helpers -/

@[simp] theorem set_schema_schema (ft : FieldType) (sp : SchemaParser) :
    (ft.set_schema sp).schema = some sp := by cases ft; rfl

@[simp] theorem set_probability_values (ft : FieldType) (pc : Nat) :
    (ft.set_probability pc).values = ft.values := by cases ft; rfl

@[simp] theorem set_probability_count (ft : FieldType) (pc : Nat) :
    (ft.set_probability pc).count = ft.count := by cases ft; rfl

@[simp] theorem set_probability_probability (ft : FieldType) (pc : Nat) :
    (ft.set_probability pc).probability = (ft.count : ℚ) / (pc : ℚ) := by cases ft; rfl

@[simp] theorem extend_values_values (ft : FieldType) (xs : List ValueType) :
    (ft.extend_values xs).values = ft.values ++ xs := by cases ft; rfl

@[simp] theorem push_value_values (ft : FieldType) (x : ValueType) :
    (ft.push_value x).values = ft.values ++ [x] := by cases ft; rfl

@[simp] theorem update_count_count (ft : FieldType) :
    (ft.update_count).count = ft.count + 1 := by cases ft; rfl

/-! ### Claims -/

/-- C1, counterexample to the claim as stated: a record whose declared type
is the container kind ("Document"), updated with a non-container value
(`Bson::I64`... here `I32`), does not produce a recoverable error value — the
code reaches `unimplemented!()` and panics (modelled as `none`), aborting. -/
theorem C1_counterexample :
    FieldType.update_type (FieldType.new "a" (Bson.document [])) (Bson.i32 1) = none := by
  simp [FieldType.update_type, FieldType.new, FieldType.bson_type, FieldType.schema,
    FieldType.get_type]

/-- C1 (amended): for every record whose `bson_type` is `"Document"`,
`update_type` with a non-container value panics via `unimplemented!()`
(modelled: returns `none`) instead of surfacing a recoverable error; the
panic is raised before `update_count`/`update_value` run, so no field of the
record has been modified when the program aborts. -/
theorem C1_theorem (ft : FieldType) (v : Bson)
    (hb : ft.bson_type = "Document") (hv : v.isContainer = false) :
    ft.update_type v = none := by
  rw [FieldType.update_type, if_pos hb]
  cases hs : ft.schema with
  | none => rfl
  | some sp => cases v <;> simp_all [Bson.isContainer]

/-- C1 witness: the amended theorem applied at a concrete record and value. -/
theorem C1_witness :
    (FieldType.new "q1" (Bson.document [])).bson_type = "Document" ∧
    (Bson.i64 7).isContainer = false ∧
    FieldType.update_type (FieldType.new "q1" (Bson.document [])) (Bson.i64 7) = none :=
  ⟨rfl, rfl, C1_theorem _ _ rfl rfl⟩

/-- C2, counterexample to the claim as stated: `FieldType::new` does NOT
populate `values` from the first value (it is the literal struct expression
with `values: Vec::new()`), and does not populate `schema` for a document
first value either. -/
theorem C2_counterexample :
    (FieldType.new "address" (Bson.string "Oranienstr. 123")).values = [] ∧
    ValueType.str "Oranienstr. 123" ∉
      (FieldType.new "address" (Bson.string "Oranienstr. 123")).values ∧
    (FieldType.new "nested" (Bson.document [("k", Bson.i32 1)])).schema = none := by
  refine ⟨rfl, ?_, rfl⟩
  simp [FieldType.new, FieldType.values]

/-- C2 (amended): `FieldType::new` sets `path`, `bson_type` from the type tag
of the value, `count = 1`, `probability = 0.0`, and leaves `values` empty,
`schema` `None`, `has_duplicates` `false` and `unique` `None` — the first
value is folded in only by the caller's separate `add_to_type` call.  There
is no failure mode. -/
theorem C2_theorem (p : String) (v : Bson) :
    (FieldType.new p v).path = p ∧
    (FieldType.new p v).bson_type = FieldType.get_type v ∧
    (FieldType.new p v).count = 1 ∧
    (FieldType.new p v).probability = 0 ∧
    (FieldType.new p v).values = [] ∧
    (FieldType.new p v).schema = none ∧
    (FieldType.new p v).has_duplicates = false ∧
    (FieldType.new p v).unique = none :=
  ⟨rfl, rfl, rfl, rfl, rfl, rfl, rfl, rfl⟩

/-- C3, counterexample to the claim as stated: the comparison used by the
sort in `get_unique` (`partial_cmp`) is undefined on a pair of NaN floats,
and a record whose pool holds two NaN floats (reachable by folding in
`Bson::FloatingPoint(f64::NAN)` twice) makes `get_unique` panic on the
`unwrap` (modelled: `none`). -/
theorem C3_counterexample :
    valueCmp (.floatingPoint .nan) (.floatingPoint .nan) = none ∧
    FieldType.get_unique
      (((FieldType.new "score" (Bson.floatingPoint .nan)).update_value
        (Bson.floatingPoint .nan)).update_value (Bson.floatingPoint .nan)) = none := by
  exact ⟨rfl, by decide⟩

/-- C3 (amended): the comparison is undefined exactly on pairs of float
values at least one of which is NaN; in particular every cross-kind pair
(e.g. a string and an int) is ordered deterministically (by variant tag),
and on every pool free of NaN floats the sort+dedup of `get_unique` is
defined and deterministic. -/
theorem C3_theorem :
    (∀ a b : ValueType,
      valueCmp a b = none ↔
        ∃ x y, a = .floatingPoint x ∧ b = .floatingPoint y ∧ (x = .nan ∨ y = .nan)) ∧
    (∀ ft : FieldType, (∀ x ∈ ft.values, x ≠ ValueType.floatingPoint .nan) →
      (ft.get_unique).isSome = true) := by
  constructor
  · intro a b; exact valueCmp_none_iff
  · intro ft hn
    rw [FieldType.get_unique]
    rw [if_pos ?_]
    · rfl
    · refine pairwiseComparable_iff.mpr ?_
      refine List.pairwise_of_forall_mem_list ?_
      intro a ha b hb
      rw [Option.isSome_iff_ne_none]
      intro hnone
      obtain ⟨x, y, hx, hy, hor⟩ := valueCmp_none_iff.mp hnone
      rcases hor with h1 | h1
      · exact hn a ha (by rw [hx, h1])
      · exact hn b hb (by rw [hy, h1])

/-- C3 witness: the amended theorem applied at a concrete NaN-free pool. -/
theorem C3_witness :
    ((FieldType.mk "w3" 1 "Int" 0 [.i32 2, .str "s"] false none none).get_unique).isSome
      = true :=
  C3_theorem.2 _ (by decide)

/-- C4, counterexample to the claim as stated: immediately after `new` with a
document first value, `bson_type` is `"Document"` but `schema` is `None`, so
the claimed iff-invariant fails. -/
theorem C4_counterexample :
    (FieldType.new "sub" (Bson.document [("k", Bson.i32 1)])).bson_type = "Document" ∧
    (FieldType.new "sub" (Bson.document [("k", Bson.i32 1)])).schema = none :=
  ⟨rfl, rfl⟩

/-- C4 (amended): `schema` is `None` immediately after `new`, whatever the
first value's kind (so the iff with `bson_type = "Document"` does not hold at
creation); `schema` becomes `Some` exactly when `add_to_type` processes a
document value (`set_schema` is reached only from that branch). -/
theorem C4_theorem :
    (∀ (p : String) (v : Bson), (FieldType.new p v).schema = none) ∧
    (∀ (ft r : FieldType) (d : List (String × Bson)) (pc : Nat),
      ft.add_to_type (Bson.document d) pc = some r → r.schema.isSome = true) := by
  constructor
  · intro p v; rfl
  · intro ft r d pc h
    rw [FieldType.add_to_type] at h
    simp only [Option.map_eq_some'] at h
    obtain ⟨sp, _, rfl⟩ := h
    simp

/-- C4 witness: the amended theorem applied at a concrete document
observation. -/
theorem C4_witness :
    (FieldType.new "sub" (Bson.document [])).add_to_type (Bson.document []) 1 =
      some (FieldType.mk "sub" 1 "Document" (((1 : Nat) : ℚ) / ((1 : Nat) : ℚ)) [] false
        (some (SchemaParser.mk 1 [])) none) ∧
    (FieldType.mk "sub" 1 "Document" (((1 : Nat) : ℚ) / ((1 : Nat) : ℚ)) [] false
        (some (SchemaParser.mk 1 [])) none).schema.isSome = true := by
  have h : (FieldType.new "sub" (Bson.document [])).add_to_type (Bson.document []) 1 =
      some (FieldType.mk "sub" 1 "Document" (((1 : Nat) : ℚ) / ((1 : Nat) : ℚ)) [] false
        (some (SchemaParser.mk 1 [])) none) := by
    rw [FieldType.add_to_type]
    simp [FieldType.new, FieldType.set_probability, FieldType.get_type,
      SchemaParser.generate_field, SchemaParser.observe_fields, SchemaParser.new,
      SchemaParser.update_count, FieldType.set_schema, FieldType.path, FieldType.count]
  exact ⟨h, C4_theorem.2 _ _ _ _ h⟩

/-- C5: finalization recomputes `probability` as `count / parent_count`
(`set_probability` inside `finalise_type`; `f32` division modelled as exact
rational division), whenever finalization completes. -/
theorem C5_theorem (ft r : FieldType) (pc : Nat) (_hpc : 0 < pc)
    (h : ft.finalise_type pc = some r) :
    r.probability = (ft.count : ℚ) / (pc : ℚ) ∧
    (ft.set_probability pc).probability = (ft.count : ℚ) / (pc : ℚ) := by
  cases ft with
  | mk p c b pr v hd s u =>
    refine ⟨?_, by simp⟩
    rw [finalise_type_eq] at h
    split at h
    · cases h
      simp [FieldType.probability, FieldType.count]
    · cases h

/-- C5 witness: a field seen in 1 of 2 documents has probability 1/2 after
finalize. -/
theorem C5_witness :
    0 < 2 ∧
    (FieldType.mk "f" 1 "Int" 0 [.i32 5] false none none).finalise_type 2 =
      some (FieldType.mk "f" 1 "Int" (((1 : Nat) : ℚ) / ((2 : Nat) : ℚ)) [.i32 5]
        false none (some 1)) ∧
    (FieldType.mk "f" 1 "Int" (((1 : Nat) : ℚ) / ((2 : Nat) : ℚ)) [.i32 5]
        false none (some 1)).probability =
      ((FieldType.mk "f" 1 "Int" 0 [.i32 5] false none none).count : ℚ) / ((2 : Nat) : ℚ) := by
  have h : (FieldType.mk "f" 1 "Int" 0 [.i32 5] false none none).finalise_type 2 =
      some (FieldType.mk "f" 1 "Int" (((1 : Nat) : ℚ) / ((2 : Nat) : ℚ)) [.i32 5]
        false none (some 1)) := by rfl
  exact ⟨by decide, h, (C5_theorem _ _ _ (by decide) h).1⟩

/-- C6: the value normalizer `get_value` is total on every non-container
variant (never `None`); timestamp and 64-bit int both normalize to the
`I64` numeric kind, and regex / symbol / code / object-id (and datetime)
normalize to the string kind. -/
theorem C6_theorem :
    (∀ v : Bson, v.isContainer = false → (FieldType.get_value v).isSome = true) ∧
    (∀ n : Int, FieldType.get_value (Bson.timeStamp n) = some (.i64 n) ∧
                FieldType.get_value (Bson.i64 n) = some (.i64 n)) ∧
    (∀ p o : String, FieldType.get_value (Bson.regExp p o) = some (.str p)) ∧
    (∀ s : String, FieldType.get_value (Bson.symbol s) = some (.str s)) ∧
    (∀ s : String, FieldType.get_value (Bson.javaScriptCode s) = some (.str s)) ∧
    (∀ (s : String) (sc : List (String × Bson)),
        FieldType.get_value (Bson.javaScriptCodeWithScope s sc) = some (.str s)) ∧
    (∀ i : String, FieldType.get_value (Bson.objectId i) = some (.str i)) := by
  refine ⟨?_, fun n => ⟨rfl, rfl⟩, fun p o => rfl, fun s => rfl, fun s => rfl,
    fun s sc => rfl, fun i => rfl⟩
  intro v hv
  cases v <;> simp_all [Bson.isContainer, FieldType.get_value]

/-- C6 witness: totality applied at a concrete scalar. -/
theorem C6_witness : (FieldType.get_value (Bson.boolean true)).isSome = true :=
  C6_theorem.1 _ rfl

/-- C7: folding an array value into a record appends exactly the
normalizations of its non-container elements, in order (`filter_map`
drops nested arrays/documents, whose `get_value` is `None`); in particular
`[1,2,3]` contributes three entries.  Both `update_value` and the
`Bson::Array` arm of `add_to_type` behave this way. -/
theorem C7_theorem :
    (∀ (ft : FieldType) (arr : List Bson),
        (ft.update_value (Bson.array arr)).values
          = ft.values ++ arr.filterMap FieldType.get_value) ∧
    (∀ (ft r : FieldType) (arr : List Bson) (pc : Nat),
        ft.add_to_type (Bson.array arr) pc = some r →
        r.values = ft.values ++ arr.filterMap FieldType.get_value) ∧
    (∀ xs : List Bson, FieldType.get_value (Bson.array xs) = none) ∧
    (∀ d : List (String × Bson), FieldType.get_value (Bson.document d) = none) ∧
    ((FieldType.new "nums" Bson.null).update_value
        (Bson.array [Bson.i32 1, Bson.i32 2, Bson.i32 3])).values
      = [.i32 1, .i32 2, .i32 3] := by
  refine ⟨?_, ?_, fun xs => rfl, fun d => rfl, rfl⟩
  · intro ft arr
    simp [FieldType.update_value]
  · intro ft r arr pc h
    rw [FieldType.add_to_type] at h
    simp only [Option.some.injEq] at h
    rw [← h]
    simp

/-- C7 witness: the `add_to_type` array clause applied at a concrete array
observation. -/
theorem C7_witness :
    (FieldType.new "nums" Bson.null).add_to_type (Bson.array [Bson.i32 1, Bson.i32 2]) 1 =
      some (FieldType.mk "nums" 1 "Null" (((1 : Nat) : ℚ) / ((1 : Nat) : ℚ))
        [.i32 1, .i32 2] false none none) ∧
    (FieldType.mk "nums" 1 "Null" (((1 : Nat) : ℚ) / ((1 : Nat) : ℚ))
        [.i32 1, .i32 2] false none none).values
      = (FieldType.new "nums" Bson.null).values ++
          [Bson.i32 1, Bson.i32 2].filterMap FieldType.get_value := by
  have h : (FieldType.new "nums" Bson.null).add_to_type (Bson.array [Bson.i32 1, Bson.i32 2]) 1 =
      some (FieldType.mk "nums" 1 "Null" (((1 : Nat) : ℚ) / ((1 : Nat) : ℚ))
        [.i32 1, .i32 2] false none none) := by
    rw [FieldType.add_to_type]
    simp [FieldType.new, FieldType.set_probability, FieldType.get_type,
      FieldType.extend_values, FieldType.get_value]
  exact ⟨h, C7_theorem.2.1 _ _ _ _ h⟩

/-- C8, counterexample to the claim as stated: on a record whose pool holds
two NaN floats (reachable by folding `Bson::FloatingPoint(f64::NAN)` in
twice), finalization does not set `unique`/`has_duplicates` at all — the
sort inside `get_unique` panics on `unwrap` (modelled: `finalise_type`
returns `none`). -/
theorem C8_counterexample :
    FieldType.finalise_type
      (((FieldType.new "p8" (Bson.floatingPoint .nan)).update_value
        (Bson.floatingPoint .nan)).update_value (Bson.floatingPoint .nan)) 1 = none := rfl

/-- C8 (amended): whenever finalization completes (in particular on every
NaN-free pool), it sets `unique` to the number of distinct values of the
pool, sets `has_duplicates` to `(values.len() - unique) != 0`, and leaves
the `values` sequence itself unchanged (the sort happens on a clone). -/
theorem C8_theorem (ft r : FieldType) (pc : Nat)
    (h : ft.finalise_type pc = some r) :
    r.unique = some ft.values.toFinset.card ∧
    r.has_duplicates = decide (ft.values.length - ft.values.toFinset.card ≠ 0) ∧
    r.values = ft.values := by
  cases ft with
  | mk p c b pr v hd s u =>
    rw [finalise_type_eq] at h
    split at h
    case isFalse => cases h
    case isTrue hc =>
      have hu : (FieldType.mk p c b pr v hd s u).get_unique
          = some (rustDedup (sortValues v)).length := by
        simp [FieldType.get_unique, FieldType.values, hc]
      have hcard := get_unique_card hu
      simp only [FieldType.values] at hcard
      cases h
      refine ⟨?_, ?_, rfl⟩
      · simp [FieldType.unique, FieldType.values, ← hcard]
      · simp [FieldType.has_duplicates, FieldType.values, ← hcard]

/-- C8 witness: the amended theorem applied at the two pools named by the
claim — `["Berlin","Hamburg"]` (unique 2, no duplicates) and
`["Berlin","Berlin"]` (unique 1, duplicates). -/
theorem C8_witness :
    (FieldType.mk "city" 2 "String" 0 [.str "Berlin", .str "Hamburg"] false none
        none).finalise_type 2 =
      some (FieldType.mk "city" 2 "String" (((2 : Nat) : ℚ) / ((2 : Nat) : ℚ))
        [.str "Berlin", .str "Hamburg"] false none (some 2)) ∧
    [ValueType.str "Berlin", ValueType.str "Hamburg"].toFinset.card = 2 ∧
    (FieldType.mk "city" 2 "String" (((2 : Nat) : ℚ) / ((2 : Nat) : ℚ))
        [.str "Berlin", .str "Hamburg"] false none (some 2)).unique =
      some ((FieldType.mk "city" 2 "String" 0 [.str "Berlin", .str "Hamburg"] false none
        none).values.toFinset.card) ∧
    (FieldType.mk "city" 2 "String" 0 [.str "Berlin", .str "Berlin"] false none
        none).finalise_type 2 =
      some (FieldType.mk "city" 2 "String" (((2 : Nat) : ℚ) / ((2 : Nat) : ℚ))
        [.str "Berlin", .str "Berlin"] true none (some 1)) ∧
    [ValueType.str "Berlin", ValueType.str "Berlin"].toFinset.card = 1 ∧
    (FieldType.mk "city" 2 "String" (((2 : Nat) : ℚ) / ((2 : Nat) : ℚ))
        [.str "Berlin", .str "Berlin"] true none (some 1)).unique =
      some ((FieldType.mk "city" 2 "String" 0 [.str "Berlin", .str "Berlin"] false none
        none).values.toFinset.card) := by
  have h1 : (FieldType.mk "city" 2 "String" 0 [.str "Berlin", .str "Hamburg"] false none
        none).finalise_type 2 =
      some (FieldType.mk "city" 2 "String" (((2 : Nat) : ℚ) / ((2 : Nat) : ℚ))
        [.str "Berlin", .str "Hamburg"] false none (some 2)) := by rfl
  have h2 : (FieldType.mk "city" 2 "String" 0 [.str "Berlin", .str "Berlin"] false none
        none).finalise_type 2 =
      some (FieldType.mk "city" 2 "String" (((2 : Nat) : ℚ) / ((2 : Nat) : ℚ))
        [.str "Berlin", .str "Berlin"] true none (some 1)) := by rfl
  exact ⟨h1, by decide, (C8_theorem _ _ _ h1).1, h2, by decide, (C8_theorem _ _ _ h2).1⟩

/-- C9: `finalise_type` is idempotent — running it a second time with the
same `parent_count` recomputes the same probability (count and values are
untouched), the same `unique` and the same `has_duplicates`, so the whole
record is unchanged (and a panicking finalization panics again). -/
theorem C9_theorem (ft : FieldType) (pc : Nat) :
    (ft.finalise_type pc).bind (fun r => r.finalise_type pc) = ft.finalise_type pc := by
  cases ft with
  | mk p c b pr v hd s u =>
    rw [finalise_type_eq]
    by_cases hc : pairwiseComparable v = true
    · rw [if_pos hc]
      rw [Option.some_bind, finalise_type_eq, if_pos hc]
    · rw [if_neg hc]
      rfl

/-- C10, counterexample to the claim as stated: `get_duplicates` is not
total — on a record whose pool holds a NaN float next to another float
(reachable observations), the inner `get_unique` panics (modelled: `none`),
so `get_duplicates` never reaches the subtraction. -/
theorem C10_counterexample :
    FieldType.get_duplicates
      (((FieldType.new "p10" (Bson.floatingPoint .nan)).update_value
        (Bson.floatingPoint (.val 1))).update_value (Bson.floatingPoint .nan)) = none := rfl

/-- C10 (amended): whenever `get_unique` returns (every record whose pool
the sort comparison fully resolves, e.g. any NaN-free pool), its result is
at most `values.len()`, so the usize subtraction `total_values - unique` in
`get_duplicates` never underflows and `get_duplicates` returns the
corresponding flag. -/
theorem C10_theorem (ft : FieldType) (n : Nat)
    (h : ft.get_unique = some n) :
    n ≤ ft.values.length ∧
    ft.get_duplicates = some (decide (ft.values.length - n ≠ 0)) := by
  refine ⟨get_unique_le h, ?_⟩
  rw [FieldType.get_duplicates, h, Option.map_some']

/-- C10 witness: the amended theorem applied at a concrete pool with a
duplicate. -/
theorem C10_witness :
    (FieldType.mk "w10" 1 "Int" 0 [.i32 1, .i32 1, .i32 2] false none none).get_unique
      = some 2 ∧
    2 ≤ (FieldType.mk "w10" 1 "Int" 0 [.i32 1, .i32 1, .i32 2] false none none).values.length ∧
    (FieldType.mk "w10" 1 "Int" 0 [.i32 1, .i32 1, .i32 2] false none none).get_duplicates
      = some (decide ((FieldType.mk "w10" 1 "Int" 0 [.i32 1, .i32 1, .i32 2] false none
          none).values.length - 2 ≠ 0)) := by
  have h : (FieldType.mk "w10" 1 "Int" 0 [.i32 1, .i32 1, .i32 2] false none none).get_unique
      = some 2 := by decide
  exact ⟨h, (C10_theorem _ _ h).1, (C10_theorem _ _ h).2⟩
